import Mathlib

/-!
Verification of the history-driven analysis pipeline of the
playwright smart reporter (SmartReporter in the repository source,
plus the merge CLI in merge-history.ts).

The TypeScript source is shallowly embedded: JS numbers used for
durations, scores and thresholds are modelled as rationals (ℚ);
the one place where JS floating-point division by zero matters
(getPerformanceTrend with average = 0) is modelled explicitly with
the IEEE-754 outcomes (±Infinity / NaN) written out as the branches
they produce.  JS objects used as dictionaries (history.tests) are
modelled as total functions from test-id strings to entry lists,
with the missing-key case corresponding to the empty list (the
source reads `this.history.tests[testId] || []` and initialises
missing keys to `[]` before pushing).
-/

/-- JS `String.prototype.startsWith`, modelled on the underlying
character lists. -/
def jsStartsWith (s pre : String) : Bool := pre.data.isPrefixOf s.data

namespace SmartReporter

/-- Test status, from the TestResultData type in the source. -/
inductive Status where
  | passed | failed | skipped | timedOut | interrupted
deriving DecidableEq, Repr

/-- interface TestHistoryEntry: `passed`, `duration` (ms), `timestamp`
(ISO-8601 string), optional `skipped` (absent modelled as `false`). -/
structure TestHistoryEntry where
  passed : Bool
  duration : ℚ
  timestamp : String
  skipped : Bool := false
deriving DecidableEq, Repr

/-- interface RunMetadata. -/
structure RunMetadata where
  runId : String
  timestamp : String
deriving DecidableEq, Repr

/-- interface RunSummary. -/
structure RunSummary where
  runId : String
  timestamp : String
  total : ℕ
  passed : ℕ
  failed : ℕ
  skipped : ℕ
  flaky : ℕ
  slow : ℕ
  duration : ℚ
  passRate : ℤ
deriving DecidableEq, Repr

/-- interface TestHistory.  `tests` is a JS object keyed by test id;
modelled as a total function with default `[]` for absent keys.
`summaries` is optional in the source type but always materialised
before use (`this.history.summaries || []`); modelled as a list. -/
structure TestHistory where
  runs : List RunMetadata
  tests : String → List TestHistoryEntry
  summaries : List RunSummary

/-- The subset of TestResultData fields the analysis pipeline reads
and writes.  `flakinessScore`, `flakinessIndicator`,
`performanceTrend`, `averageDuration` start out absent (none) and are
assigned by onTestEnd. -/
structure TestResultData where
  testId : String
  title : String
  status : Status
  duration : ℚ
  retry : ℕ
  flakinessScore : Option ℚ := none
  flakinessIndicator : Option String := none
  performanceTrend : Option String := none
  averageDuration : Option ℚ := none
deriving DecidableEq, Repr

/-- JS `Math.round`: round half toward +∞ (Math.round(x) = floor(x + 0.5)). -/
def jsRound (q : ℚ) : ℤ := ⌊q + 1 / 2⌋

/-- getFlakinessIndicator (source lines 435-439):
score < 0.1 → Stable, score < 0.3 → Unstable, else Flaky. -/
def getFlakinessIndicator (score : ℚ) : String :=
  if score < 1 / 10 then "🟢 Stable"
  else if score < 3 / 10 then "🟡 Unstable"
  else "🔴 Flaky"

/-- getPerformanceTrend (source lines 441-450).
The source computes `diff = (current - average) / average` on JS
numbers.  When `average = 0` this is IEEE division by zero:
`+Infinity` for `current > 0` (then `Infinity > threshold`, and
`Math.round(Infinity * 100)` prints as `Infinity`), `-Infinity` for
`current < 0`, and `NaN` for `current = 0` (both comparisons false).
Those outcomes are written out as explicit branches; the
`average ≠ 0` case is ordinary rational arithmetic. -/
def getPerformanceTrend (threshold : ℚ) (current average : ℚ) : String :=
  if average = 0 then
    if 0 < current then "↑ Infinity% slower"
    else if current < 0 then "↓ Infinity% faster"
    else "→ Stable"
  else
    let diff : ℚ := (current - average) / average
    if threshold < diff then
      "↑ " ++ toString (jsRound (diff * 100)) ++ "% slower"
    else if diff < -threshold then
      "↓ " ++ toString (jsRound (|diff| * 100)) ++ "% faster"
    else "→ Stable"

/-- Output of the flakiness / performance analysis block of onTestEnd
(source lines 221-252): the four analyzer-attached fields. -/
structure Analysis where
  flakinessScore : Option ℚ
  flakinessIndicator : String
  performanceTrend : String
  averageDuration : Option ℚ
deriving DecidableEq, Repr

/-- The flakiness / performance block of onTestEnd (source lines
221-252), as a function of the current status and duration and the
test's history entries. -/
def analyzeTest (threshold : ℚ) (status : Status) (duration : ℚ)
    (historyEntries : List TestHistoryEntry) : Analysis :=
  if status = Status.skipped then
    { flakinessScore := none
      flakinessIndicator := "⚪ Skipped"
      performanceTrend := "→ Skipped"
      averageDuration := none }
  else if historyEntries.length > 0 then
    let relevantHistory := historyEntries.filter (fun e => !e.skipped)
    if relevantHistory.length > 0 then
      let failures := (relevantHistory.filter (fun e => !e.passed)).length
      let flakinessScore : ℚ := (failures : ℚ) / (relevantHistory.length : ℚ)
      let avgDuration : ℚ :=
        (relevantHistory.map (fun e => e.duration)).sum / (relevantHistory.length : ℚ)
      { flakinessScore := some flakinessScore
        flakinessIndicator := getFlakinessIndicator flakinessScore
        performanceTrend := getPerformanceTrend threshold duration avgDuration
        averageDuration := some avgDuration }
    else
      { flakinessScore := none
        flakinessIndicator := "⚪ New"
        performanceTrend := "→ Baseline"
        averageDuration := none }
  else
    { flakinessScore := none
      flakinessIndicator := "⚪ New"
      performanceTrend := "→ Baseline"
      averageDuration := none }

/-- The last `n` elements of a list (JS `arr.slice(-n)` for `n > 0`). -/
def takeLast {α : Type} (n : ℕ) (l : List α) : List α :=
  l.drop (l.length - n)

/-- The trimming idiom of updateHistory (source lines 312-317 and
343-346): `if (arr.length > max) arr = arr.slice(-max)`.
JS quirk kept: when `max = 0` the slice argument is `-0`, and
`arr.slice(-0) = arr.slice(0)` is the whole array, so no trimming
happens. -/
def trimLast {α : Type} (max : ℕ) (l : List α) : List α :=
  if l.length > max then (if max = 0 then l else takeLast max l) else l

/-- The run-summary computed inside updateHistory (source lines
324-342).  `r.flakinessScore && r.flakinessScore >= 0.3` uses JS
truthiness: a score of 0 is falsy; modelled as `s ≠ 0 ∧ 3/10 ≤ s`. -/
def mkRunSummary (runId timestamp : String) (runDuration : ℚ)
    (results : List TestResultData) : RunSummary :=
  let passed := (results.filter (fun r => r.status = Status.passed)).length
  let failed := (results.filter
    (fun r => r.status = Status.failed ∨ r.status = Status.timedOut)).length
  let skipped := (results.filter (fun r => r.status = Status.skipped)).length
  let flaky := (results.filter (fun r =>
    match r.flakinessScore with
    | some s => s ≠ 0 ∧ 3 / 10 ≤ s
    | none => False)).length
  let slow := (results.filter (fun r =>
    match r.performanceTrend with
    | some t => jsStartsWith t "↑" = true
    | none => False)).length
  { runId := runId
    timestamp := timestamp
    total := results.length
    passed := passed
    failed := failed
    skipped := skipped
    flaky := flaky
    slow := slow
    duration := runDuration
    passRate := if passed + failed > 0 then
        jsRound ((passed : ℚ) / ((passed : ℚ) + (failed : ℚ)) * 100)
      else 0 }

/-- The history entry appended for one result (source lines 305-310). -/
def entryOf (timestamp : String) (r : TestResultData) : TestHistoryEntry :=
  { passed := r.status = Status.passed
    duration := r.duration
    timestamp := timestamp
    skipped := r.status = Status.skipped }

/-- The per-test loop of updateHistory (source lines 300-318): for each
result, append the new entry to that test's sequence and trim. -/
def updTests (timestamp : String) (max : ℕ) (results : List TestResultData)
    (tests : String → List TestHistoryEntry) : String → List TestHistoryEntry :=
  results.foldl
    (fun acc r => fun id =>
      if id = r.testId then trimLast max (acc id ++ [entryOf timestamp r])
      else acc id)
    tests

/-- The inputs of one updateHistory call that do not come from the
history document: the shared entry timestamp, the current run's
metadata, the run wall-clock duration and the analyzed results. -/
structure RunInput where
  timestamp : String
  runId : String
  runTimestamp : String
  runDuration : ℚ
  results : List TestResultData

/-- updateHistory (source lines 297-350), minus the final file write:
per-test append-and-trim, then append the run summary and trim the
summaries.  `runs` is not touched. -/
def updateHistory (max : ℕ) (inp : RunInput) (h : TestHistory) : TestHistory :=
  { runs := h.runs
    tests := updTests inp.timestamp max inp.results h.tests
    summaries := trimLast max
      (h.summaries ++ [mkRunSummary inp.runId inp.runTimestamp inp.runDuration inp.results]) }

/-- A sequence of record-current-run operations. -/
def recordRuns (max : ℕ) (ops : List RunInput) (h : TestHistory) : TestHistory :=
  ops.foldl (fun acc inp => updateHistory max inp acc) h

/-- The `failed` count embedded in the generated HTML report
(generateHtml, source line 602): only status `failed`, unlike the
persisted RunSummary which also counts `timedOut`. -/
def htmlFailedCount (results : List TestResultData) : ℕ :=
  (results.filter (fun r => r.status = Status.failed)).length

/-- Count of timedOut results. -/
def timedOutCount (results : List TestResultData) : ℕ :=
  (results.filter (fun r => r.status = Status.timedOut)).length

/-- One stacked bar of the trend chart (generateTrendChart, source
lines 2339-2371): the passed/failed percentages relative to the
non-skipped total (`s.passed + s.failed || 1`). -/
structure TrendBar where
  passedCount : ℕ
  failedCount : ℕ
  passedPct : ℚ
  failedPct : ℚ
deriving DecidableEq, Repr

/-- Bar data for one run of the trend chart. -/
def mkTrendBar (passed failed : ℕ) : TrendBar :=
  let nonSkippedTotal : ℕ := if passed + failed = 0 then 1 else passed + failed
  { passedCount := passed
    failedCount := failed
    passedPct := (passed : ℚ) / (nonSkippedTotal : ℚ) * 100
    failedPct := (failed : ℚ) / (nonSkippedTotal : ℚ) * 100 }

/-- The data series of generateTrendChart (source lines 2312-2371):
`none` models the early return of the empty string when fewer than two
summaries are stored; otherwise one stacked bar per stored summary
(in order) followed by the current run's bar. -/
def generateTrendChartBars (summaries : List RunSummary)
    (results : List TestResultData) : Option (List TrendBar) :=
  if summaries.length < 2 then none
  else
    let passed := (results.filter (fun r => r.status = Status.passed)).length
    let failed := (results.filter
      (fun r => r.status = Status.failed ∨ r.status = Status.timedOut)).length
    some (summaries.map (fun s => mkTrendBar s.passed s.failed)
      ++ [mkTrendBar passed failed])

/-- The empty history document (`{ runs: [], tests: {}, summaries: [] }`). -/
def emptyHistory : TestHistory :=
  { runs := [], tests := fun _ => [], summaries := [] }

/-- What loadHistory (source lines 278-295) finds on disk: the file is
missing, the file exists but JSON.parse throws, or the parse yields a
value.  A parsed value either has a truthy `tests` field (new format:
taken as the document as-is) or not (old format: the root is the tests
mapping itself). -/
inductive HistoryFileState where
  | missing
  | unparseable
  | newFormat (doc : TestHistory)
  | legacyFormat (tests : String → List TestHistoryEntry)

/-- loadHistory (source lines 278-295).  The field initialiser of
`this.history` supplies the empty document when the file is missing;
the catch branch supplies it on parse failure; a legacy root-is-tests
document is wrapped as `{ runs: [], tests: loaded, summaries: [] }`. -/
def loadHistory : HistoryFileState → TestHistory
  | HistoryFileState.missing => emptyHistory
  | HistoryFileState.unparseable => emptyHistory
  | HistoryFileState.newFormat doc => doc
  | HistoryFileState.legacyFormat t =>
      { runs := [], tests := t, summaries := [] }

end SmartReporter

namespace MergeCli

/-- The argument-scan loop of `main` in merge-history.ts (source lines
33-43), carrying the positional files collected so far and the last
`-o` value.  `-o`/`--output` takes the next argument (when the flag is
last, `args[++i]` is `undefined`, modelled as the scan ending with
`none`); `-n`/`--max-runs` consumes the next argument; any other
argument starting with `-` is ignored; everything else is a
positional history file. -/
def parseLoop : List String → List String → Option String →
    (List String × Option String)
  | [], files, out => (files, out)
  | a :: rest, files, out =>
    if a = "-o" ∨ a = "--output" then
      match rest with
      | [] => (files, none)
      | v :: rest' => parseLoop rest' files (some v)
    else if a = "-n" ∨ a = "--max-runs" then
      match rest with
      | [] => (files, out)
      | _ :: rest' => parseLoop rest' files out
    else if jsStartsWith a "-" then parseLoop rest files out
    else parseLoop rest (files ++ [a]) out

/-- The exit code of `main` in merge-history.ts (source lines 21-59).
Empty argument list or a help flag: usage is printed and the process
exits 0.  Otherwise the arguments are scanned; no positional history
file → exit 1; no output value, or an empty-string output (JS
`!outputFile` is true for the empty string) → exit 1; otherwise the
merge runs and the process ends normally with code 0. -/
def mainExitCode (args : List String) : ℕ :=
  if args = [] ∨ "-h" ∈ args ∨ "--help" ∈ args then 0
  else
    let parsed := parseLoop args [] none
    if parsed.1 = [] then 1
    else
      match parsed.2 with
      | none => 1
      | some s => if s = "" then 1 else 0

end MergeCli

namespace SmartReporter

/-- Keep the first occurrence of each key, dropping later ones
(stable, input-order deduplication). -/
def dedupBy {α κ : Type} [DecidableEq κ] (key : α → κ) : List α → List α
  | [] => []
  | a :: l => a :: dedupBy key (l.filter (fun b => key b ≠ key a))
termination_by l => l.length
decreasing_by
  exact Nat.lt_succ_of_le (List.length_filter_le _ _)

/-- Ordering of history entries by timestamp (ISO-8601 strings compare
lexicographically, which is chronological order). -/
def entryLe (a b : TestHistoryEntry) : Prop := a.timestamp ≤ b.timestamp

instance : DecidableRel entryLe :=
  fun a b => inferInstanceAs (Decidable (a.timestamp ≤ b.timestamp))

/-- Ordering of run summaries by timestamp. -/
def summaryLe (a b : RunSummary) : Prop := a.timestamp ≤ b.timestamp

instance : DecidableRel summaryLe :=
  fun a b => inferInstanceAs (Decidable (a.timestamp ≤ b.timestamp))

/-- Stable sort of history entries by timestamp ascending. -/
def sortEntries (l : List TestHistoryEntry) : List TestHistoryEntry :=
  l.insertionSort entryLe

/-- Stable sort of run summaries by timestamp ascending. -/
def sortSummaries (l : List RunSummary) : List RunSummary :=
  l.insertionSort summaryLe

/-- Modelled from the spec: the `mergeHistories` function is imported
by merge-history.ts from './smart-reporter', whose implementation is
not among the visible sources.  Following the spec's merge design:
`runs` is the union of RunMetadata deduplicated by runId (stable by
input order); for each test identity, its entry sequence is the union
across inputs (duplicate identical entries collapsed, stable by input
order) sorted by timestamp ascending and truncated to the last
`maxHistoryRuns`; `summaries` is the union deduplicated by runId,
sorted by timestamp ascending, truncated to the last
`maxHistoryRuns`. -/
def mergeHistories (max : ℕ) (docs : List TestHistory) : TestHistory :=
  { runs := dedupBy (fun r => r.runId) (docs.flatMap (fun d => d.runs))
    tests := fun id =>
      takeLast max (sortEntries (dedupBy (fun e => e) (docs.flatMap (fun d => d.tests id))))
    summaries :=
      takeLast max (sortSummaries (dedupBy (fun s => s.runId) (docs.flatMap (fun d => d.summaries)))) }

/-- A history document whose per-test sequences and summaries are all
within the cap. -/
def BoundedHistory (max : ℕ) (h : TestHistory) : Prop :=
  (∀ id, (h.tests id).length ≤ max) ∧ h.summaries.length ≤ max

/-- A history document in canonical form for the cap `max`: run ids
and summary run ids are duplicate-free, every entry sequence and the
summaries sequence are duplicate-free-by-timestamp, sorted by
timestamp ascending, and within the cap. -/
def Canonical (max : ℕ) (h : TestHistory) : Prop :=
  (h.runs.map (fun r => r.runId)).Nodup ∧
  (∀ id, ((h.tests id).map (fun e => e.timestamp)).Nodup ∧
    List.Sorted entryLe (h.tests id) ∧ (h.tests id).length ≤ max) ∧
  (h.summaries.map (fun s => s.runId)).Nodup ∧
  (h.summaries.map (fun s => s.timestamp)).Nodup ∧
  List.Sorted summaryLe h.summaries ∧ h.summaries.length ≤ max

end SmartReporter

namespace SmartReporter

theorem takeLast_suffix {α : Type} (n : ℕ) (l : List α) : (takeLast n l).IsSuffix l :=
  List.drop_suffix _ l

theorem trimLast_suffix {α : Type} (max : ℕ) (l : List α) : (trimLast max l).IsSuffix l := by
  unfold trimLast
  split
  · split
    · exact List.suffix_rfl
    · exact takeLast_suffix _ _
  · exact List.suffix_rfl

theorem trimLast_length {α : Type} {max : ℕ} (hmax : 1 ≤ max) (l : List α) :
    (trimLast max l).length = min l.length max := by
  unfold trimLast takeLast
  split
  · next h =>
    have hm : max ≠ 0 := by omega
    simp only [hm, if_false, List.length_drop]
    omega
  · next h => omega

theorem trimLast_length_le {α : Type} {max : ℕ} (hmax : 1 ≤ max) (l : List α) :
    (trimLast max l).length ≤ max := by
  rw [trimLast_length hmax]
  omega

theorem updTests_frame (ts : String) (max : ℕ) (results : List TestResultData)
    (acc : String → List TestHistoryEntry) (id : String)
    (h : id ∉ results.map (fun r => r.testId)) :
    updTests ts max results acc id = acc id := by
  induction results generalizing acc with
  | nil => rfl
  | cons r rs ih =>
    simp only [List.map_cons, List.mem_cons, not_or] at h
    simp only [updTests, List.foldl_cons]
    rw [show (List.foldl _ _ rs : String → List TestHistoryEntry) id =
      updTests ts max rs _ id from rfl]
    rw [ih _ (by simpa using h.2)]
    simp [h.1]

theorem updTests_bounded {max : ℕ} (hmax : 1 ≤ max) (ts : String)
    (results : List TestResultData) (acc : String → List TestHistoryEntry)
    (hb : ∀ id, (acc id).length ≤ max) :
    ∀ id, (updTests ts max results acc id).length ≤ max := by
  induction results generalizing acc with
  | nil => exact hb
  | cons r rs ih =>
    simp only [updTests, List.foldl_cons]
    refine ih _ (fun id => ?_)
    by_cases hid : id = r.testId
    · simp only [hid, if_pos rfl]
      exact trimLast_length_le hmax _
    · simpa [hid] using hb id

theorem updTests_eq_of_nodup {ts : String} {max : ℕ} {results : List TestResultData}
    {r : TestResultData} (hn : (results.map (fun t => t.testId)).Nodup)
    (hr : r ∈ results) (acc : String → List TestHistoryEntry) :
    updTests ts max results acc r.testId = trimLast max (acc r.testId ++ [entryOf ts r]) := by
  induction results generalizing acc with
  | nil => exact absurd hr (List.not_mem_nil r)
  | cons x rs ih =>
    simp only [List.map_cons, List.nodup_cons] at hn
    rcases List.mem_cons.mp hr with hrx | hrs
    · subst hrx
      simp only [updTests, List.foldl_cons]
      rw [show (List.foldl _ _ rs : String → List TestHistoryEntry) r.testId =
        updTests ts max rs _ r.testId from rfl]
      rw [updTests_frame ts max rs _ r.testId hn.1]
      simp
    · have hne : r.testId ≠ x.testId := by
        intro hEq
        exact hn.1 (hEq ▸ List.mem_map_of_mem (fun t => t.testId) hrs)
      simp only [updTests, List.foldl_cons]
      rw [show (List.foldl _ _ rs : String → List TestHistoryEntry) r.testId =
        updTests ts max rs _ r.testId from rfl]
      rw [ih hn.2 hrs]
      simp [hne]

theorem length_filter_or {α : Type} (p q : α → Bool) (l : List α)
    (h : ∀ a ∈ l, ¬(p a = true ∧ q a = true)) :
    (l.filter (fun a => p a || q a)).length
      = (l.filter p).length + (l.filter q).length := by
  induction l with
  | nil => rfl
  | cons a l ih =>
    have ha := h a (List.mem_cons_self a l)
    have ih' := ih (fun b hb => h b (List.mem_cons_of_mem a hb))
    cases hp : p a <;> cases hq : q a <;>
      simp [List.filter_cons, hp, hq, ih'] <;> try omega
    exact absurd ⟨hp, hq⟩ ha

theorem failed_count_split (results : List TestResultData) :
    (results.filter (fun r => r.status = Status.failed ∨ r.status = Status.timedOut)).length
      = htmlFailedCount results + timedOutCount results := by
  unfold htmlFailedCount timedOutCount
  have h := length_filter_or (fun r => decide (r.status = Status.failed))
    (fun r => decide (r.status = Status.timedOut)) results
    (fun a _ => by cases ha : a.status <;> simp [ha])
  simpa [Bool.decide_or] using h

end SmartReporter

namespace SmartReporter

/-- C6: History load never fails the run: a missing history file
yields the empty document `{runs: [], tests: {}, summaries: []}`, an
unparseable file yields the empty document, and a legacy-shape
document whose root is the tests mapping is upgraded to the current
shape with that mapping as `tests` and empty `runs`/`summaries`. -/
theorem load_history_fallbacks :
    loadHistory HistoryFileState.missing = emptyHistory ∧
    loadHistory HistoryFileState.unparseable = emptyHistory ∧
    ∀ t : String → List TestHistoryEntry,
      loadHistory (HistoryFileState.legacyFormat t)
        = { runs := [], tests := t, summaries := [] } :=
  ⟨rfl, rfl, fun _ => rfl⟩

/-- C5: Trend composition returns an absent result whenever the
persisted summaries sequence has fewer than 2 elements; with 2 or more
summaries it produces exactly one data point per persisted summary
plus one additional data point for the current run. -/
theorem trend_chart_points (summaries : List RunSummary)
    (results : List TestResultData) :
    (summaries.length < 2 → generateTrendChartBars summaries results = none) ∧
    (2 ≤ summaries.length → ∃ bars,
      generateTrendChartBars summaries results = some bars ∧
      bars.length = summaries.length + 1) := by
  constructor
  · intro h
    simp [generateTrendChartBars, h]
  · intro h
    have h2 : ¬summaries.length < 2 := by omega
    unfold generateTrendChartBars
    rw [if_neg h2]
    exact ⟨_, rfl, by simp⟩

/-- Witness for C5 at a concrete input: two stored summaries give
three data points. -/
theorem trend_chart_points_witness :
    2 ≤ ([⟨"r1", "t1", 1, 1, 0, 0, 0, 0, 0, 100⟩,
          ⟨"r2", "t2", 1, 1, 0, 0, 0, 0, 0, 100⟩] : List RunSummary).length ∧
    ∃ bars, generateTrendChartBars
        [⟨"r1", "t1", 1, 1, 0, 0, 0, 0, 0, 100⟩,
         ⟨"r2", "t2", 1, 1, 0, 0, 0, 0, 0, 100⟩] [] = some bars ∧
      bars.length = ([⟨"r1", "t1", 1, 1, 0, 0, 0, 0, 0, 100⟩,
          ⟨"r2", "t2", 1, 1, 0, 0, 0, 0, 0, 100⟩] : List RunSummary).length + 1 :=
  ⟨by decide, (trend_chart_points _ []).2 (by decide)⟩

/-- C9: Recording a run modifies only the histories of tests present
in the current run's results: any test identity not among the current
results keeps its entry sequence exactly unchanged. -/
theorem update_history_frame (max : ℕ) (inp : RunInput) (h : TestHistory)
    (id : String) (hid : id ∉ inp.results.map (fun r => r.testId)) :
    (updateHistory max inp h).tests id = h.tests id :=
  updTests_frame inp.timestamp max inp.results h.tests id hid

/-- Witness for C9 at a concrete input: a run touching only test "a"
leaves test "b" unchanged. -/
theorem update_history_frame_witness :
    ("b" ∉ ([⟨"a", "title", Status.passed, 5, 0, none, none, none, none⟩]
        : List TestResultData).map (fun r => r.testId)) ∧
    (updateHistory 10
        ⟨"t", "run-1", "t", 0,
          [⟨"a", "title", Status.passed, 5, 0, none, none, none, none⟩]⟩
        emptyHistory).tests "b" = emptyHistory.tests "b" :=
  ⟨by decide,
   update_history_frame 10
     ⟨"t", "run-1", "t", 0,
       [⟨"a", "title", Status.passed, 5, 0, none, none, none, none⟩]⟩
     emptyHistory "b" (by decide)⟩

/-- C10: The failed count embedded in the generated HTML counts only
status 'failed', while the persisted RunSummary.failed counts both
'failed' and 'timedOut'; for every run with at least one timedOut
test, the HTML failed count equals RunSummary.failed minus the number
of timedOut tests and is strictly smaller. -/
theorem html_vs_summary_failed_count (runId ts : String) (dur : ℚ)
    (results : List TestResultData) (h : 1 ≤ timedOutCount results) :
    (mkRunSummary runId ts dur results).failed
        = htmlFailedCount results + timedOutCount results ∧
    htmlFailedCount results
        = (mkRunSummary runId ts dur results).failed - timedOutCount results ∧
    htmlFailedCount results < (mkRunSummary runId ts dur results).failed := by
  have hs : (mkRunSummary runId ts dur results).failed
      = htmlFailedCount results + timedOutCount results := failed_count_split results
  exact ⟨hs, by omega, by omega⟩

/-- Witness for C10 at a concrete input: one failed and one timedOut
test give RunSummary.failed = 2 but an HTML failed count of 1. -/
theorem html_vs_summary_failed_count_witness :
    1 ≤ timedOutCount
        [⟨"a", "t", Status.failed, 1, 0, none, none, none, none⟩,
         ⟨"b", "u", Status.timedOut, 1, 0, none, none, none, none⟩] ∧
    (mkRunSummary "r" "ts" 0
        [⟨"a", "t", Status.failed, 1, 0, none, none, none, none⟩,
         ⟨"b", "u", Status.timedOut, 1, 0, none, none, none, none⟩]).failed
      = htmlFailedCount
          [⟨"a", "t", Status.failed, 1, 0, none, none, none, none⟩,
           ⟨"b", "u", Status.timedOut, 1, 0, none, none, none, none⟩]
        + timedOutCount
          [⟨"a", "t", Status.failed, 1, 0, none, none, none, none⟩,
           ⟨"b", "u", Status.timedOut, 1, 0, none, none, none, none⟩] :=
  ⟨by decide,
   (html_vs_summary_failed_count "r" "ts" 0
     [⟨"a", "t", Status.failed, 1, 0, none, none, none, none⟩,
      ⟨"b", "u", Status.timedOut, 1, 0, none, none, none, none⟩] (by decide)).1⟩

/-- C7: A skipped current test gets indicator "⚪ Skipped" regardless
of history and no numeric score; a non-skipped test whose history is
empty or all-skipped gets indicator "⚪ New" and no numeric score. -/
theorem skipped_and_new_indicators (threshold duration : ℚ)
    (entries : List TestHistoryEntry) (status : Status) :
    ((analyzeTest threshold Status.skipped duration entries).flakinessIndicator
        = "⚪ Skipped" ∧
     (analyzeTest threshold Status.skipped duration entries).flakinessScore = none) ∧
    (status ≠ Status.skipped → (∀ e ∈ entries, e.skipped = true) →
      (analyzeTest threshold status duration entries).flakinessIndicator = "⚪ New" ∧
      (analyzeTest threshold status duration entries).flakinessScore = none) := by
  refine ⟨⟨by simp [analyzeTest], by simp [analyzeTest]⟩, ?_⟩
  intro hs hall
  have hfil : entries.filter (fun e => !e.skipped) = [] :=
    List.filter_eq_nil_iff.mpr (fun a ha => by simp [hall a ha])
  unfold analyzeTest
  rw [if_neg hs]
  by_cases hlen : entries.length > 0
  · simp [hlen, hfil]
  · simp [hlen]

/-- Witness for C7 at a concrete input: a passed test with an
all-skipped history is "⚪ New" with no score. -/
theorem skipped_and_new_indicators_witness :
    (Status.passed ≠ Status.skipped) ∧
    (∀ e ∈ ([⟨true, 1, "t", true⟩] : List TestHistoryEntry), e.skipped = true) ∧
    (analyzeTest (1/5) Status.passed 7 [⟨true, 1, "t", true⟩]).flakinessIndicator
      = "⚪ New" ∧
    (analyzeTest (1/5) Status.passed 7 [⟨true, 1, "t", true⟩]).flakinessScore = none := by
  refine ⟨by decide, by decide, ?_, ?_⟩
  · exact ((skipped_and_new_indicators (1/5) 7 [⟨true, 1, "t", true⟩]
      Status.passed).2 (by decide) (by decide)).1
  · exact ((skipped_and_new_indicators (1/5) 7 [⟨true, 1, "t", true⟩]
      Status.passed).2 (by decide) (by decide)).2

end SmartReporter

namespace SmartReporter

theorem getFlakinessIndicator_stable {s : ℚ} (h : s < 1 / 10) :
    getFlakinessIndicator s = "🟢 Stable" := by
  rw [getFlakinessIndicator, if_pos h]

theorem getFlakinessIndicator_unstable {s : ℚ} (h1 : 1 / 10 ≤ s) (h2 : s < 3 / 10) :
    getFlakinessIndicator s = "🟡 Unstable" := by
  rw [getFlakinessIndicator, if_neg (not_lt.mpr h1), if_pos h2]

theorem getFlakinessIndicator_flaky {s : ℚ} (h : 3 / 10 ≤ s) :
    getFlakinessIndicator s = "🔴 Flaky" := by
  have h1 : ¬s < 1 / 10 := not_lt.mpr (le_trans (by norm_num) h)
  rw [getFlakinessIndicator, if_neg h1, if_neg (not_lt.mpr h)]

theorem analyzeTest_active (threshold duration : ℚ) {status : Status}
    {entries : List TestHistoryEntry} (hs : status ≠ Status.skipped)
    (hne : entries.filter (fun e => !e.skipped) ≠ []) :
    analyzeTest threshold status duration entries =
      { flakinessScore := some
          ((((entries.filter (fun e => !e.skipped)).filter (fun e => !e.passed)).length : ℚ)
            / ((entries.filter (fun e => !e.skipped)).length : ℚ))
        flakinessIndicator := getFlakinessIndicator
          ((((entries.filter (fun e => !e.skipped)).filter (fun e => !e.passed)).length : ℚ)
            / ((entries.filter (fun e => !e.skipped)).length : ℚ))
        performanceTrend := getPerformanceTrend threshold duration
          (((entries.filter (fun e => !e.skipped)).map (fun e => e.duration)).sum
            / ((entries.filter (fun e => !e.skipped)).length : ℚ))
        averageDuration := some
          (((entries.filter (fun e => !e.skipped)).map (fun e => e.duration)).sum
            / ((entries.filter (fun e => !e.skipped)).length : ℚ)) } := by
  have h1 : entries.length > 0 := by
    cases entries with
    | nil => simp at hne
    | cons a l => simp
  have h2 : (entries.filter (fun e => !e.skipped)).length > 0 :=
    List.length_pos.mpr hne
  simp only [analyzeTest, if_neg hs, if_pos h1, if_pos h2]

end SmartReporter

namespace SmartReporter

/-- C2: For every non-skipped current test whose history contains at
least one non-skipped entry, the flakiness score equals
failures / total over the non-skipped history, and the indicator is
Stable below 0.10, Unstable in [0.10, 0.30), Flaky at and above 0.30
(score 0.29 is Unstable, score 0.30 is Flaky). -/
theorem flakiness_score_and_bands (threshold duration : ℚ)
    (entries : List TestHistoryEntry) (status : Status)
    (hs : status ≠ Status.skipped)
    (hne : entries.filter (fun e => !e.skipped) ≠ []) :
    (analyzeTest threshold status duration entries).flakinessScore
      = some ((((entries.filter (fun e => !e.skipped)).filter
            (fun e => !e.passed)).length : ℚ)
          / ((entries.filter (fun e => !e.skipped)).length : ℚ)) ∧
    (analyzeTest threshold status duration entries).flakinessIndicator
      = getFlakinessIndicator
          ((((entries.filter (fun e => !e.skipped)).filter
              (fun e => !e.passed)).length : ℚ)
            / ((entries.filter (fun e => !e.skipped)).length : ℚ)) ∧
    (∀ s : ℚ, s < 1 / 10 → getFlakinessIndicator s = "🟢 Stable") ∧
    (∀ s : ℚ, 1 / 10 ≤ s → s < 3 / 10 → getFlakinessIndicator s = "🟡 Unstable") ∧
    (∀ s : ℚ, 3 / 10 ≤ s → getFlakinessIndicator s = "🔴 Flaky") ∧
    getFlakinessIndicator (29 / 100) = "🟡 Unstable" ∧
    getFlakinessIndicator (30 / 100) = "🔴 Flaky" := by
  have h := analyzeTest_active threshold duration hs hne
  refine ⟨by rw [h], by rw [h],
    fun s h1 => getFlakinessIndicator_stable h1,
    fun s h1 h2 => getFlakinessIndicator_unstable h1 h2,
    fun s h1 => getFlakinessIndicator_flaky h1,
    getFlakinessIndicator_unstable (by norm_num) (by norm_num),
    getFlakinessIndicator_flaky (by norm_num)⟩

/-- Witness for C2 at a concrete input: history with one failure out
of two non-skipped entries gives score 1/2 and indicator Flaky. -/
theorem flakiness_score_and_bands_witness :
    (Status.passed ≠ Status.skipped) ∧
    ([⟨false, 100, "t", false⟩, ⟨true, 100, "u", false⟩]
        : List TestHistoryEntry).filter (fun e => !e.skipped) ≠ [] ∧
    (analyzeTest (1/5) Status.passed 100
        [⟨false, 100, "t", false⟩, ⟨true, 100, "u", false⟩]).flakinessScore
      = some (1/2) ∧
    (analyzeTest (1/5) Status.passed 100
        [⟨false, 100, "t", false⟩, ⟨true, 100, "u", false⟩]).flakinessIndicator
      = "🔴 Flaky" := by
  have h := flakiness_score_and_bands (1/5) 100
    [⟨false, 100, "t", false⟩, ⟨true, 100, "u", false⟩] Status.passed
    (by decide) (by decide)
  refine ⟨by decide, by decide, ?_, ?_⟩
  · rw [h.1]
    norm_num [List.filter]
  · rw [h.2.1]
    have : ((([⟨false, 100, "t", false⟩, ⟨true, 100, "u", false⟩]
        : List TestHistoryEntry).filter (fun e => !e.skipped)).filter
          (fun e => !e.passed)).length = 1 := by decide
    rw [this]
    have h2 : ((([⟨false, 100, "t", false⟩, ⟨true, 100, "u", false⟩]
        : List TestHistoryEntry).filter (fun e => !e.skipped))).length = 2 := by decide
    rw [h2]
    exact h.2.2.2.2.1 _ (by push_cast; norm_num)

end SmartReporter

namespace SmartReporter

/-- C4 counterexample: with an historical average of exactly 0 and a
positive current duration, the performance-trend computation yields a
"slower" classification ("↑ Infinity% slower"), not the neutral
label. -/
theorem perf_trend_zero_average_counterexample :
    getPerformanceTrend (1/5) 100 0 = "↑ Infinity% slower" ∧
    getPerformanceTrend (1/5) 100 0 ≠ "→ Stable" ∧
    getPerformanceTrend (1/5) 100 0 ≠ "→ Baseline" := by
  have h : getPerformanceTrend (1/5) 100 0 = "↑ Infinity% slower" := by
    unfold getPerformanceTrend
    norm_num
  exact ⟨h, by rw [h]; decide, by rw [h]; decide⟩

/-- C4 amended: the performance-trend computation with an historical
average of exactly 0 does not throw (it is total and yields a string),
and yields the neutral "→ Stable" label only when the current duration
is also 0 (the NaN comparison case); when the current duration is
positive it yields "↑ Infinity% slower" (the +Infinity case), both
directly and through the onTestEnd analysis over an all-zero-duration
non-skipped history. -/
theorem perf_trend_zero_average_amended (threshold duration : ℚ)
    (status : Status) (entries : List TestHistoryEntry)
    (hs : status ≠ Status.skipped)
    (hne : entries.filter (fun e => !e.skipped) ≠ [])
    (hz : ∀ e ∈ entries.filter (fun e => !e.skipped), e.duration = 0)
    (hd : 0 ≤ duration) :
    (∀ c : ℚ, 0 ≤ c → getPerformanceTrend threshold c 0
        = if 0 < c then "↑ Infinity% slower" else "→ Stable") ∧
    (analyzeTest threshold status duration entries).averageDuration = some 0 ∧
    (analyzeTest threshold status duration entries).performanceTrend
      = if 0 < duration then "↑ Infinity% slower" else "→ Stable" := by
  have hzero : ∀ c : ℚ, 0 ≤ c → getPerformanceTrend threshold c 0
      = if 0 < c then "↑ Infinity% slower" else "→ Stable" := by
    intro c hc
    unfold getPerformanceTrend
    rw [if_pos rfl]
    by_cases h0 : 0 < c
    · rw [if_pos h0, if_pos h0]
    · rw [if_neg h0, if_neg (not_lt.mpr hc), if_neg h0]
  have hsum : ((entries.filter (fun e => !e.skipped)).map (fun e => e.duration)).sum = 0 :=
    List.sum_eq_zero (fun x hx => by
      rcases List.mem_map.mp hx with ⟨e, he, hex⟩
      rw [← hex]
      exact hz e he)
  have havg : ((entries.filter (fun e => !e.skipped)).map (fun e => e.duration)).sum
      / ((entries.filter (fun e => !e.skipped)).length : ℚ) = 0 := by
    rw [hsum, zero_div]
  have h := analyzeTest_active threshold duration hs hne
  refine ⟨hzero, ?_, ?_⟩
  · rw [h]
    simp [havg]
  · rw [h]
    show getPerformanceTrend threshold duration _ = _
    rw [havg]
    exact hzero duration hd

/-- Witness for C4 amended at a concrete input: a passed test with
current duration 100 over a history whose only entry has duration 0
gets "↑ Infinity% slower". -/
theorem perf_trend_zero_average_amended_witness :
    (Status.passed ≠ Status.skipped) ∧
    (([⟨true, 0, "t", false⟩] : List TestHistoryEntry).filter
        (fun e => !e.skipped) ≠ []) ∧
    (∀ e ∈ ([⟨true, 0, "t", false⟩] : List TestHistoryEntry).filter
        (fun e => !e.skipped), e.duration = 0) ∧
    (0 : ℚ) ≤ 100 ∧
    (analyzeTest (1/5) Status.passed 100
        [⟨true, 0, "t", false⟩]).performanceTrend = "↑ Infinity% slower" := by
  have h := perf_trend_zero_average_amended (1/5) 100 Status.passed
    [⟨true, 0, "t", false⟩] (by decide) (by decide)
    (by intro e he; simp [List.filter] at he; rw [he])
    (by norm_num)
  refine ⟨by decide, by decide,
    by intro e he; simp [List.filter] at he; rw [he], by norm_num, ?_⟩
  rw [h.2.2]
  norm_num

end SmartReporter

namespace SmartReporter

theorem updateHistory_bounded {max : ℕ} (hmax : 1 ≤ max) (inp : RunInput)
    {h : TestHistory} (hb : BoundedHistory max h) :
    BoundedHistory max (updateHistory max inp h) :=
  ⟨updTests_bounded hmax inp.timestamp inp.results h.tests hb.1,
   trimLast_length_le hmax _⟩

/-- C1 counterexample: with cap 2, a record operation over a document
whose test "a" already holds 3 entries (and whose current results do
not include "a") leaves that sequence at length 3, above the cap. -/
theorem bounded_retention_counterexample :
    ¬(((recordRuns 2 [⟨"t", "run-1", "t", 0, []⟩]
        { runs := [],
          tests := fun id => if id = "a" then
            [⟨true, 1, "x", false⟩, ⟨true, 1, "y", false⟩, ⟨true, 1, "z", false⟩]
            else [],
          summaries := [] }).tests "a").length ≤ 2) := by
  decide

/-- C1 amended: provided the cap is at least 1 and the starting
document is within the cap, every per-test sequence and the summaries
sequence stay within the cap after any sequence of record operations;
and each record operation appends the new entry (for each test of the
current results, under distinct test ids) and the new summary at the
end, then drops entries from the front, keeping the most recent
`maxHistoryRuns`. -/
theorem bounded_retention_amended (max : ℕ) (hmax : 1 ≤ max)
    (h0 : TestHistory) (hb : BoundedHistory max h0) (ops : List RunInput) :
    BoundedHistory max (recordRuns max ops h0) ∧
    (∀ (inp : RunInput) (H : TestHistory) (r : TestResultData),
      (inp.results.map (fun t => t.testId)).Nodup → r ∈ inp.results →
      (updateHistory max inp H).tests r.testId
          = trimLast max (H.tests r.testId ++ [entryOf inp.timestamp r]) ∧
      ((updateHistory max inp H).tests r.testId).IsSuffix
          (H.tests r.testId ++ [entryOf inp.timestamp r]) ∧
      ((updateHistory max inp H).tests r.testId).length
          = min ((H.tests r.testId).length + 1) max) ∧
    (∀ (inp : RunInput) (H : TestHistory),
      (updateHistory max inp H).summaries
          = trimLast max (H.summaries
              ++ [mkRunSummary inp.runId inp.runTimestamp inp.runDuration inp.results]) ∧
      ((updateHistory max inp H).summaries).IsSuffix
          (H.summaries
            ++ [mkRunSummary inp.runId inp.runTimestamp inp.runDuration inp.results]) ∧
      ((updateHistory max inp H).summaries).length
          = min (H.summaries.length + 1) max) := by
  refine ⟨?_, ?_, ?_⟩
  · induction ops generalizing h0 with
    | nil => exact hb
    | cons inp ops ih =>
      exact ih _ (updateHistory_bounded hmax inp hb)
  · intro inp H r hn hr
    have heq : (updateHistory max inp H).tests r.testId
        = trimLast max (H.tests r.testId ++ [entryOf inp.timestamp r]) :=
      updTests_eq_of_nodup hn hr H.tests
    refine ⟨heq, ?_, ?_⟩
    · rw [heq]
      exact trimLast_suffix _ _
    · rw [heq, trimLast_length hmax]
      simp
  · intro inp H
    refine ⟨rfl, trimLast_suffix _ _, ?_⟩
    show (trimLast max _).length = _
    rw [trimLast_length hmax]
    simp

/-- Witness for C1 amended at a concrete input: cap 2, empty starting
document, one record operation; the document stays within the cap. -/
theorem bounded_retention_amended_witness :
    1 ≤ 2 ∧ BoundedHistory 2 emptyHistory ∧
    BoundedHistory 2 (recordRuns 2
      [⟨"t", "run-1", "t", 0,
        [⟨"a", "title", Status.passed, 5, 0, none, none, none, none⟩]⟩]
      emptyHistory) := by
  have hb : BoundedHistory 2 emptyHistory :=
    ⟨fun id => by simp [emptyHistory], by simp [emptyHistory]⟩
  exact ⟨by decide, hb,
    (bounded_retention_amended 2 (by decide) emptyHistory hb
      [⟨"t", "run-1", "t", 0,
        [⟨"a", "title", Status.passed, 5, 0, none, none, none, none⟩]⟩]).1⟩

end SmartReporter

namespace MergeCli

/-- C8 counterexample: invoked with no arguments at all — so no input
history files and no output path are given, and help is not
requested — the CLI exits with code 0 (it prints usage), not 1. -/
theorem merge_cli_exit_counterexample :
    mainExitCode [] = 0 ∧
    "-h" ∉ ([] : List String) ∧ "--help" ∉ ([] : List String) := by
  decide

/-- C8 amended: the CLI exits 0 when help is requested or when it is
invoked with no arguments at all (the usage case); when at least one
argument is given and help is not requested, it exits 1 exactly when
the scan finds no positional input file, or no `-o` value, or an empty
`-o` value, and exits 0 otherwise. -/
theorem merge_cli_exit_codes_amended (args args2 : List String)
    (hne : args ≠ []) (h1 : "-h" ∉ args) (h2 : "--help" ∉ args) :
    (("-h" ∈ args2 ∨ "--help" ∈ args2) → mainExitCode args2 = 0) ∧
    mainExitCode [] = 0 ∧
    (mainExitCode args = 1 ↔
      (parseLoop args [] none).1 = [] ∨ (parseLoop args [] none).2 = none ∨
      (parseLoop args [] none).2 = some "") ∧
    (mainExitCode args = 0 ↔
      ¬((parseLoop args [] none).1 = [] ∨ (parseLoop args [] none).2 = none ∨
        (parseLoop args [] none).2 = some "")) := by
  have hcond : ¬(args = [] ∨ "-h" ∈ args ∨ "--help" ∈ args) := by
    simp [hne, h1, h2]
  refine ⟨?_, by decide, ?_, ?_⟩
  · intro h
    unfold mainExitCode
    rw [if_pos (Or.inr h)]
  all_goals
    unfold mainExitCode
    rw [if_neg hcond]
    by_cases hf : (parseLoop args [] none).1 = []
  · simp [hf]
  · cases ho : (parseLoop args [] none).2 with
    | none => simp [hf, ho]
    | some s =>
      by_cases hs : s = "" <;> simp [hf, ho, hs]
  · simp [hf]
  · cases ho : (parseLoop args [] none).2 with
    | none => simp [hf, ho]
    | some s =>
      by_cases hs : s = "" <;> simp [hf, ho, hs]

/-- Witness for C8 amended at concrete inputs: `["-h"]` exits 0,
`["a.json"]` (an input file but no output path) exits 1. -/
theorem merge_cli_exit_codes_amended_witness :
    (["a.json"] ≠ ([] : List String)) ∧ "-h" ∉ ["a.json"] ∧
    "--help" ∉ ["a.json"] ∧ mainExitCode ["-h"] = 0 ∧
    mainExitCode ["a.json"] = 1 := by
  have h := merge_cli_exit_codes_amended ["a.json"] ["-h"]
    (by decide) (by decide) (by decide)
  exact ⟨by decide, by decide, by decide,
    h.1 (Or.inl (by decide)),
    h.2.2.1.mpr (Or.inr (Or.inl (by decide)))⟩

end MergeCli

namespace SmartReporter

theorem dedupBy_eq_self {α κ : Type} [DecidableEq κ] (key : α → κ)
    {l : List α} (h : (l.map key).Nodup) : dedupBy key l = l := by
  induction l with
  | nil => simp [dedupBy]
  | cons a l ih =>
    rw [List.map_cons, List.nodup_cons] at h
    have hfil : l.filter (fun b => key b ≠ key a) = l :=
      List.filter_eq_self.mpr (fun b hb => by
        simp only [decide_eq_true_eq]
        intro hEq
        exact h.1 (hEq ▸ List.mem_map_of_mem key hb))
    rw [dedupBy, hfil, ih h.2]

theorem dedupBy_append_self {α κ : Type} [DecidableEq κ] (key : α → κ)
    {l : List α} (h : (l.map key).Nodup) : dedupBy key (l ++ l) = l := by
  induction l with
  | nil => simp [dedupBy]
  | cons a l ih =>
    rw [List.map_cons, List.nodup_cons] at h
    have hfil : l.filter (fun b => key b ≠ key a) = l :=
      List.filter_eq_self.mpr (fun b hb => by
        simp only [decide_eq_true_eq]
        intro hEq
        exact h.1 (hEq ▸ List.mem_map_of_mem key hb))
    show dedupBy key (a :: (l ++ a :: l)) = a :: l
    rw [dedupBy]
    have hqa : (decide (key a ≠ key a)) = false := by simp
    have hfl : (l ++ a :: l).filter (fun b => key b ≠ key a) = l ++ l := by
      rw [List.filter_append, List.filter_cons, hqa, if_neg Bool.false_ne_true,
        hfil]
    rw [hfl, ih h.2]

theorem insertionSort_key_perm_eq {α κ : Type} [LinearOrder κ] (key : α → κ)
    (r : α → α → Prop) [DecidableRel r] (hr : ∀ a b, r a b ↔ key a ≤ key b)
    {l₁ l₂ : List α} (hp : l₁.Perm l₂) (hn : (l₁.map key).Nodup) :
    l₁.insertionSort r = l₂.insertionSort r := by
  haveI htot : IsTotal α r := ⟨fun a b => by rw [hr, hr]; exact le_total _ _⟩
  haveI htrans : IsTrans α r := ⟨fun a b c hab hbc => by
    rw [hr] at hab hbc ⊢
    exact le_trans hab hbc⟩
  haveI : IsAntisymm α (fun a b => key a < key b) :=
    ⟨fun a b hab hba => absurd hba (lt_asymm hab)⟩
  have hstrict : ∀ (l : List α), (l.map key).Nodup →
      List.Sorted (fun a b => key a < key b) (l.insertionSort r) := by
    intro l hl
    have hs : List.Sorted r (l.insertionSort r) := List.sorted_insertionSort r l
    have hnd : ((l.insertionSort r).map key).Nodup :=
      ((List.perm_insertionSort r l).map key).nodup_iff.mpr hl
    have hne : (l.insertionSort r).Pairwise (fun a b => key a ≠ key b) :=
      (List.pairwise_map).mp hnd
    exact (hs.and hne).imp (fun hab => lt_of_le_of_ne ((hr _ _).1 hab.1) hab.2)
  have hn₂ : (l₂.map key).Nodup := ((hp.map key).nodup_iff).mp hn
  exact List.eq_of_perm_of_sorted
    ((List.perm_insertionSort r l₁).trans (hp.trans (List.perm_insertionSort r l₂).symm))
    (hstrict l₁ hn) (hstrict l₂ hn₂)

theorem takeLast_eq_self {α : Type} {n : ℕ} {l : List α} (h : l.length ≤ n) :
    takeLast n l = l := by
  unfold takeLast
  have h0 : l.length - n = 0 := by omega
  rw [h0, List.drop_zero]

theorem TestHistory_ext {A B : TestHistory} (h1 : A.runs = B.runs)
    (h2 : A.tests = B.tests) (h3 : A.summaries = B.summaries) : A = B := by
  cases A
  cases B
  cases h1
  cases h2
  cases h3
  rfl

end SmartReporter

namespace SmartReporter

/-- C3 counterexample: two documents with disjoint run ids (and no
tests or summaries at all, so no truncation ties are involved) merge
to different documents in the two orders: the merged `runs` union
keeps input order, so the documents differ. -/
theorem merge_commutative_counterexample :
    ("r1" : String) ≠ "r2" ∧
    mergeHistories 10
        [⟨[⟨"r1", "2024-01-01"⟩], fun _ => [], []⟩,
         ⟨[⟨"r2", "2024-01-02"⟩], fun _ => [], []⟩]
      ≠ mergeHistories 10
        [⟨[⟨"r2", "2024-01-02"⟩], fun _ => [], []⟩,
         ⟨[⟨"r1", "2024-01-01"⟩], fun _ => [], []⟩] := by
  refine ⟨by decide, fun h => ?_⟩
  have hr := congrArg TestHistory.runs h
  simp [mergeHistories, dedupBy] at hr

/-- C3 amended: for a canonical document H (entries and summaries
sorted by timestamp with pairwise-distinct timestamps, run ids
duplicate-free, within the cap), merging [H] — or H with itself —
yields H exactly; for documents H1, H2 with pairwise-distinct run ids
and pairwise-distinct timestamps across both inputs, merging in either
order yields the same per-test sequences and the same summaries, while
the merged `runs` sequences agree only up to permutation (the union
keeps input order), so full document equality fails in general. -/
theorem merge_idempotent_commutative_amended (max : ℕ) (H H1 H2 : TestHistory)
    (hc : Canonical max H)
    (hruns : ((H1.runs ++ H2.runs).map (fun r => r.runId)).Nodup)
    (hsumid : ((H1.summaries ++ H2.summaries).map (fun s => s.runId)).Nodup)
    (hsumts : ((H1.summaries ++ H2.summaries).map (fun s => s.timestamp)).Nodup)
    (hts : ∀ id, ((H1.tests id ++ H2.tests id).map (fun e => e.timestamp)).Nodup) :
    mergeHistories max [H] = H ∧
    mergeHistories max [H, H] = H ∧
    (∀ id, (mergeHistories max [H1, H2]).tests id
        = (mergeHistories max [H2, H1]).tests id) ∧
    (mergeHistories max [H1, H2]).summaries
        = (mergeHistories max [H2, H1]).summaries ∧
    (mergeHistories max [H1, H2]).runs.Perm (mergeHistories max [H2, H1]).runs := by
  obtain ⟨hcr, hct, hcsid, hcsts, hcss, hcsl⟩ := hc
  -- per-test facts for the canonical document
  have htnodup : ∀ id, (H.tests id).Nodup :=
    fun id => List.Nodup.of_map _ (hct id).1
  have htid : ∀ id, ((H.tests id).map (fun e => e)).Nodup := by
    intro id
    simpa using htnodup id
  have hsnodup : H.summaries.Nodup := List.Nodup.of_map _ hcsts
  -- reduction of a merged test sequence when the union is already canonical
  have hcanon : ∀ id, takeLast max (sortEntries (dedupBy (fun e => e) (H.tests id)))
      = H.tests id := by
    intro id
    rw [dedupBy_eq_self _ (htid id)]
    rw [show sortEntries (H.tests id) = H.tests id from
      List.Sorted.insertionSort_eq (hct id).2.1]
    exact takeLast_eq_self (hct id).2.2
  have hsumcanon : takeLast max (sortSummaries (dedupBy (fun s => s.runId) H.summaries))
      = H.summaries := by
    rw [dedupBy_eq_self _ hcsid]
    rw [show sortSummaries H.summaries = H.summaries from
      List.Sorted.insertionSort_eq hcss]
    exact takeLast_eq_self hcsl
  refine ⟨?_, ?_, ?_, ?_, ?_⟩
  · -- merge [H] = H
    refine TestHistory_ext ?_ (funext fun id => ?_) ?_
    · show dedupBy (fun r => r.runId) ([H].flatMap (fun d => d.runs)) = H.runs
      rw [show [H].flatMap (fun d => d.runs) = H.runs by simp]
      exact dedupBy_eq_self _ hcr
    · show takeLast max (sortEntries (dedupBy (fun e => e)
        ([H].flatMap (fun d => d.tests id)))) = H.tests id
      rw [show [H].flatMap (fun d => d.tests id) = H.tests id by simp]
      exact hcanon id
    · show takeLast max (sortSummaries (dedupBy (fun s => s.runId)
        ([H].flatMap (fun d => d.summaries)))) = H.summaries
      rw [show [H].flatMap (fun d => d.summaries) = H.summaries by simp]
      exact hsumcanon
  · -- merge [H, H] = H
    refine TestHistory_ext ?_ (funext fun id => ?_) ?_
    · show dedupBy (fun r => r.runId) ([H, H].flatMap (fun d => d.runs)) = H.runs
      rw [show [H, H].flatMap (fun d => d.runs) = H.runs ++ H.runs by simp]
      exact dedupBy_append_self _ hcr
    · show takeLast max (sortEntries (dedupBy (fun e => e)
        ([H, H].flatMap (fun d => d.tests id)))) = H.tests id
      rw [show [H, H].flatMap (fun d => d.tests id) = H.tests id ++ H.tests id by simp]
      rw [dedupBy_append_self _ (htid id)]
      rw [show sortEntries (H.tests id) = H.tests id from
        List.Sorted.insertionSort_eq (hct id).2.1]
      exact takeLast_eq_self (hct id).2.2
    · show takeLast max (sortSummaries (dedupBy (fun s => s.runId)
        ([H, H].flatMap (fun d => d.summaries)))) = H.summaries
      rw [show [H, H].flatMap (fun d => d.summaries) = H.summaries ++ H.summaries by simp]
      rw [dedupBy_append_self _ hcsid]
      rw [show sortSummaries H.summaries = H.summaries from
        List.Sorted.insertionSort_eq hcss]
      exact takeLast_eq_self hcsl
  · -- per-test sequences commute
    intro id
    have hn12 := hts id
    have hperm : (H1.tests id ++ H2.tests id).Perm (H2.tests id ++ H1.tests id) :=
      List.perm_append_comm
    have hv12 : (H1.tests id ++ H2.tests id).Nodup := List.Nodup.of_map _ hn12
    have hv21 : (H2.tests id ++ H1.tests id).Nodup := hperm.nodup_iff.mp hv12
    show takeLast max (sortEntries (dedupBy (fun e => e)
        ([H1, H2].flatMap (fun d => d.tests id))))
      = takeLast max (sortEntries (dedupBy (fun e => e)
        ([H2, H1].flatMap (fun d => d.tests id))))
    rw [show [H1, H2].flatMap (fun d => d.tests id)
        = H1.tests id ++ H2.tests id by simp]
    rw [show [H2, H1].flatMap (fun d => d.tests id)
        = H2.tests id ++ H1.tests id by simp]
    rw [dedupBy_eq_self _ (by simpa using hv12), dedupBy_eq_self _ (by simpa using hv21)]
    rw [show sortEntries (H1.tests id ++ H2.tests id)
        = sortEntries (H2.tests id ++ H1.tests id) from
      insertionSort_key_perm_eq (fun e => e.timestamp) entryLe
        (fun a b => by exact Iff.rfl) hperm hn12]
  · -- summaries commute
    have hperm : (H1.summaries ++ H2.summaries).Perm (H2.summaries ++ H1.summaries) :=
      List.perm_append_comm
    have hn21 : ((H2.summaries ++ H1.summaries).map (fun s => s.runId)).Nodup :=
      ((hperm.map _).nodup_iff).mp hsumid
    have hts21 : ((H2.summaries ++ H1.summaries).map (fun s => s.timestamp)).Nodup :=
      ((hperm.map _).nodup_iff).mp hsumts
    show takeLast max (sortSummaries (dedupBy (fun s => s.runId)
        ([H1, H2].flatMap (fun d => d.summaries))))
      = takeLast max (sortSummaries (dedupBy (fun s => s.runId)
        ([H2, H1].flatMap (fun d => d.summaries))))
    rw [show [H1, H2].flatMap (fun d => d.summaries)
        = H1.summaries ++ H2.summaries by simp]
    rw [show [H2, H1].flatMap (fun d => d.summaries)
        = H2.summaries ++ H1.summaries by simp]
    rw [dedupBy_eq_self _ hsumid, dedupBy_eq_self _ hn21]
    rw [show sortSummaries (H1.summaries ++ H2.summaries)
        = sortSummaries (H2.summaries ++ H1.summaries) from
      insertionSort_key_perm_eq (fun s => s.timestamp) summaryLe
        (fun a b => by exact Iff.rfl) hperm hsumts]
  · -- runs agree up to permutation
    have hperm : (H1.runs ++ H2.runs).Perm (H2.runs ++ H1.runs) :=
      List.perm_append_comm
    have hn21 : ((H2.runs ++ H1.runs).map (fun r => r.runId)).Nodup :=
      ((hperm.map _).nodup_iff).mp hruns
    show (dedupBy (fun r => r.runId) ([H1, H2].flatMap (fun d => d.runs))).Perm
        (dedupBy (fun r => r.runId) ([H2, H1].flatMap (fun d => d.runs)))
    rw [show [H1, H2].flatMap (fun d => d.runs) = H1.runs ++ H2.runs by simp]
    rw [show [H2, H1].flatMap (fun d => d.runs) = H2.runs ++ H1.runs by simp]
    rw [dedupBy_eq_self _ hruns, dedupBy_eq_self _ hn21]
    exact hperm

end SmartReporter

namespace SmartReporter

/-- Witness for C3 amended at concrete inputs: a one-run canonical
document merges to itself, and two disjoint one-run documents merge to
the same summaries in either order. -/
theorem merge_idempotent_commutative_amended_witness :
    Canonical 10
      ⟨[⟨"r1", "t1"⟩],
        fun id => if id = "a" then [⟨true, 1, "t1", false⟩] else [],
        [⟨"r1", "t1", 1, 1, 0, 0, 0, 0, 0, 100⟩]⟩ ∧
    mergeHistories 10
        [⟨[⟨"r1", "t1"⟩],
          fun id => if id = "a" then [⟨true, 1, "t1", false⟩] else [],
          [⟨"r1", "t1", 1, 1, 0, 0, 0, 0, 0, 100⟩]⟩]
      = ⟨[⟨"r1", "t1"⟩],
          fun id => if id = "a" then [⟨true, 1, "t1", false⟩] else [],
          [⟨"r1", "t1", 1, 1, 0, 0, 0, 0, 0, 100⟩]⟩ ∧
    (mergeHistories 10
        [⟨[⟨"ra", "ta"⟩], fun _ => [], [⟨"ra", "ta", 1, 1, 0, 0, 0, 0, 0, 100⟩]⟩,
         ⟨[⟨"rb", "tb"⟩], fun _ => [], [⟨"rb", "tb", 1, 1, 0, 0, 0, 0, 0, 100⟩]⟩]).summaries
      = (mergeHistories 10
        [⟨[⟨"rb", "tb"⟩], fun _ => [], [⟨"rb", "tb", 1, 1, 0, 0, 0, 0, 0, 100⟩]⟩,
         ⟨[⟨"ra", "ta"⟩], fun _ => [], [⟨"ra", "ta", 1, 1, 0, 0, 0, 0, 0, 100⟩]⟩]).summaries := by
  have hc : Canonical 10
      ⟨[⟨"r1", "t1"⟩],
        fun id => if id = "a" then [⟨true, 1, "t1", false⟩] else [],
        [⟨"r1", "t1", 1, 1, 0, 0, 0, 0, 0, 100⟩]⟩ := by
    refine ⟨by decide, fun id => ?_, by decide, by decide,
      List.sorted_singleton _, by decide⟩
    by_cases hid : id = "a"
    · simp only [hid, if_pos rfl]
      exact ⟨by simp, List.sorted_singleton _, by simp⟩
    · simp only [if_neg hid]
      exact ⟨by simp, List.sorted_nil, by simp⟩
  have h := merge_idempotent_commutative_amended 10
    ⟨[⟨"r1", "t1"⟩],
      fun id => if id = "a" then [⟨true, 1, "t1", false⟩] else [],
      [⟨"r1", "t1", 1, 1, 0, 0, 0, 0, 0, 100⟩]⟩
    ⟨[⟨"ra", "ta"⟩], fun _ => [], [⟨"ra", "ta", 1, 1, 0, 0, 0, 0, 0, 100⟩]⟩
    ⟨[⟨"rb", "tb"⟩], fun _ => [], [⟨"rb", "tb", 1, 1, 0, 0, 0, 0, 0, 100⟩]⟩
    hc (by decide) (by decide) (by decide) (fun id => by simp)
  exact ⟨hc, h.1, h.2.2.2.1⟩

end SmartReporter
